import Mathlib

/-!
Shallow embedding of `actix-http/src/helpers.rs`: the status-line and
content-length encoders, the general digit emitter `write_usize`, and the
`Writer` stream adapter over a growable byte buffer.

The output buffer (`BytesMut`) is modelled as a `List Nat` of byte values;
`put_slice`/`put_u8` are the `BufMut` append primitives.  Rust's narrowing
casts (`as u8`/`as u16`/`as u32`) are modelled by explicit reduction modulo
`2^8`/`2^16`/`2^32`, and `u8` addition by wrapping addition modulo `2^8`
(release-mode semantics, matching the documented wrap-around behaviour).
-/

namespace ActixHelpers

/-- Byte values of an ASCII string literal (all literals in the source are ASCII). -/
def asciiBytes (s : String) : List Nat := s.toList.map Char.toNat

/-- Rust `as u8` narrowing cast. -/
def u8cast (n : Nat) : Nat := n % 2 ^ 8

/-- Rust `as u16` narrowing cast. -/
def u16cast (n : Nat) : Nat := n % 2 ^ 16

/-- Rust `as u32` narrowing cast. -/
def u32cast (n : Nat) : Nat := n % 2 ^ 32

/-- Wrapping `u8` addition. -/
def u8add (a b : Nat) : Nat := (a + b) % 2 ^ 8

/-- `const DIGITS_START: u8 = b'0';` -/
def DIGITS_START : Nat := 48

/-- `http::Version`: the versions distinguished by the crate; `write_status_line`
matches on the first three and treats the rest with a catch-all arm. -/
inductive Version where
  | HTTP_09
  | HTTP_10
  | HTTP_11
  | HTTP_2
  | HTTP_3
deriving DecidableEq

/-- `BytesMut::put_slice`: append a byte slice to the buffer. -/
def put_slice (bytes s : List Nat) : List Nat := bytes ++ s

/-- `BytesMut::put_u8`: append a single byte to the buffer. -/
def put_u8 (bytes : List Nat) (b : Nat) : List Nat := bytes ++ [b]

/-- `write_status_line(version: Version, n: u16, bytes: &mut BytesMut)`. -/
def write_status_line (version : Version) (n : Nat) (bytes : List Nat) : List Nat :=
  let bytes := put_slice bytes (asciiBytes "HTTP/")
  let bytes :=
    match version with
    | .HTTP_11 => put_slice bytes (asciiBytes "1.1 ")
    | .HTTP_10 => put_slice bytes (asciiBytes "1.0 ")
    | .HTTP_09 => put_slice bytes (asciiBytes "0.9 ")
    | _ => bytes
  let d100 := u8cast (n / 100)
  let d10 := u8cast (n / 10 % 10)
  let d1 := u8cast (n % 10)
  let bytes := put_u8 bytes (u8add DIGITS_START d100)
  let bytes := put_u8 bytes (u8add DIGITS_START d10)
  let bytes := put_u8 bytes (u8add DIGITS_START d1)
  -- trailing space before reason
  put_u8 bytes 32

/-- The `while n > 9` loop of `write_usize`: pops least-significant digits
into the scratch buffer `buf` until the remaining value is a single digit;
returns the scratch buffer and the remaining value. -/
def wu_loop (n : Nat) (buf : List Nat) : List Nat × Nat :=
  if 9 < n then
    wu_loop (n / 10) (put_u8 buf (u8add DIGITS_START (u8cast (n % 10))))
  else
    (buf, n)
termination_by n
decreasing_by exact Nat.div_lt_self (by omega) (by omega)

/-- `write_usize(n: usize, bytes: &mut BytesMut)`: the general digit emitter,
used by `write_content_length` for values of 7 or more digits. -/
def write_usize (n : Nat) (bytes : List Nat) : List Nat :=
  let p := wu_loop n []
  -- put msd to result buffer
  let bytes := put_u8 bytes (u8add DIGITS_START (u8cast p.2))
  -- put, in reverse (msd to lsd), remaining digits to buffer
  p.1.reverse.foldl put_u8 bytes

/-- `write_content_length(n: usize, bytes: &mut BytesMut)`: the size-tiered
content-length encoder. -/
def write_content_length (n : Nat) (bytes : List Nat) : List Nat :=
  let bytes := put_slice bytes (asciiBytes "\r\ncontent-length: ")
  let bytes :=
    if n < 10 then
      put_u8 bytes (u8add DIGITS_START (u8cast n))
    else if n < 100 then
      let m := u8cast n
      let d10 := m / 10
      let d1 := m % 10
      let bytes := put_u8 bytes (u8add DIGITS_START d10)
      put_u8 bytes (u8add DIGITS_START d1)
    else if n < 1000 then
      let m := u16cast n
      let d100 := u8cast (m / 100)
      let d10 := u8cast (m / 10 % 10)
      let d1 := u8cast (m % 10)
      let bytes := put_u8 bytes (u8add DIGITS_START d100)
      let bytes := put_u8 bytes (u8add DIGITS_START d10)
      put_u8 bytes (u8add DIGITS_START d1)
    else if n < 10000 then
      let m := u16cast n
      let d1000 := u8cast (m / 1000)
      let d100 := u8cast (m / 100 % 10)
      let d10 := u8cast (m / 10 % 10)
      let d1 := u8cast (m % 10)
      let bytes := put_u8 bytes (u8add DIGITS_START d1000)
      let bytes := put_u8 bytes (u8add DIGITS_START d100)
      let bytes := put_u8 bytes (u8add DIGITS_START d10)
      put_u8 bytes (u8add DIGITS_START d1)
    else if n < 100000 then
      let m := u32cast n
      let d10000 := u8cast (m / 10000)
      let d1000 := u8cast (m / 1000 % 10)
      let d100 := u8cast (m / 100 % 10)
      let d10 := u8cast (m / 10 % 10)
      let d1 := u8cast (m % 10)
      let bytes := put_u8 bytes (u8add DIGITS_START d10000)
      let bytes := put_u8 bytes (u8add DIGITS_START d1000)
      let bytes := put_u8 bytes (u8add DIGITS_START d100)
      let bytes := put_u8 bytes (u8add DIGITS_START d10)
      put_u8 bytes (u8add DIGITS_START d1)
    else if n < 1000000 then
      let m := u32cast n
      let d100000 := u8cast (m / 100000)
      let d10000 := u8cast (m / 10000 % 10)
      let d1000 := u8cast (m / 1000 % 10)
      let d100 := u8cast (m / 100 % 10)
      let d10 := u8cast (m / 10 % 10)
      let d1 := u8cast (m % 10)
      let bytes := put_u8 bytes (u8add DIGITS_START d100000)
      let bytes := put_u8 bytes (u8add DIGITS_START d10000)
      let bytes := put_u8 bytes (u8add DIGITS_START d1000)
      let bytes := put_u8 bytes (u8add DIGITS_START d100)
      let bytes := put_u8 bytes (u8add DIGITS_START d10)
      put_u8 bytes (u8add DIGITS_START d1)
    else
      write_usize n bytes
  put_slice bytes (asciiBytes "\r\n")

/-- `BytesMut::extend_from_slice`, used by the `io::Write` impl of `Writer`. -/
def extend_from_slice (buf s : List Nat) : List Nat := buf ++ s

/-- `Writer::write`: appends the input slice to the wrapped buffer and returns
`Ok(buf.len())`; result is `(new buffer contents, io::Result value)`. -/
def Writer_write (buf s : List Nat) : List Nat × Except String Nat :=
  (extend_from_slice buf s, Except.ok s.length)

/-- `Writer::flush`: a no-op returning `Ok(())`. -/
def Writer_flush (buf : List Nat) : List Nat × Except String Unit :=
  (buf, Except.ok ())

/-- The canonical decimal representation of `n` as ASCII bytes: no leading
zeros, most-significant digit first, the single digit `"0"` for `n = 0`.
Built from `Nat.digits`, which lists digits least-significant first. -/
def decBytes (n : Nat) : List Nat :=
  if n = 0 then [DIGITS_START]
  else (Nat.digits 10 n).reverse.map (fun d => DIGITS_START + d)

/-- The zero-padded 3-digit decimal representation of `c` (for `c ≤ 999`) as
ASCII bytes: the canonical digits of `c`, left-padded with `'0'` to width 3. -/
def pad3 (c : Nat) : List Nat :=
  List.replicate (3 - (Nat.digits 10 c).length) DIGITS_START ++
    (Nat.digits 10 c).reverse.map (fun d => DIGITS_START + d)

/-- The bytes `write_status_line` emits for the version segment: the version
token with its trailing space for the three recognized versions, nothing for
any other version. -/
def versionToken : Version → List Nat
  | .HTTP_11 => asciiBytes "1.1 "
  | .HTTP_10 => asciiBytes "1.0 "
  | .HTTP_09 => asciiBytes "0.9 "
  | .HTTP_2 => []
  | .HTTP_3 => []

/-- Modelled from the spec: the size tiering of `write_content_length`
collapsed to the single general routine (`write_usize`), per the design note
that "implementers may collapse it to one parameterized routine without losing
correctness".  Used as the comparison point of the refinement claim. -/
def write_content_length_general (n : Nat) (bytes : List Nat) : List Nat :=
  let bytes := put_slice bytes (asciiBytes "\r\ncontent-length: ")
  let bytes := write_usize n bytes
  put_slice bytes (asciiBytes "\r\n")

/-! Helper lemmas. -/

theorem foldl_put_u8 (l b : List Nat) : l.foldl put_u8 b = b ++ l := by
  induction l generalizing b with
  | nil => simp
  | cons x xs ih => simp [put_u8, ih]

theorem u8cast_of_lt {n : Nat} (h : n < 256) : u8cast n = n := Nat.mod_eq_of_lt h

theorem u16cast_of_lt {n : Nat} (h : n < 65536) : u16cast n = n := Nat.mod_eq_of_lt h

theorem u32cast_of_lt {n : Nat} (h : n < 4294967296) : u32cast n = n := Nat.mod_eq_of_lt h

theorem u8add_digit {d : Nat} (h : d < 208) : u8add DIGITS_START d = DIGITS_START + d := by
  unfold u8add DIGITS_START
  omega

theorem u8add_u8cast_digit {d : Nat} (h : d < 208) :
    u8add DIGITS_START (u8cast d) = DIGITS_START + d := by
  unfold u8add u8cast DIGITS_START
  omega

theorem digits10_one {n : Nat} (h1 : 0 < n) (h2 : n < 10) : Nat.digits 10 n = [n] :=
  Nat.digits_of_lt 10 n (by omega) h2

theorem digits10_two {n : Nat} (h1 : 10 ≤ n) (h2 : n < 100) :
    Nat.digits 10 n = [n % 10, n / 10] := by
  rw [Nat.digits_def' (by norm_num : (1 : Nat) < 10) (by omega),
    digits10_one (by omega) (by omega)]

theorem digits10_three {n : Nat} (h1 : 100 ≤ n) (h2 : n < 1000) :
    Nat.digits 10 n = [n % 10, n / 10 % 10, n / 100] := by
  rw [Nat.digits_def' (by norm_num : (1 : Nat) < 10) (by omega),
    digits10_two (by omega) (by omega)]
  norm_num [Nat.div_div_eq_div_mul]

theorem digits10_four {n : Nat} (h1 : 1000 ≤ n) (h2 : n < 10000) :
    Nat.digits 10 n = [n % 10, n / 10 % 10, n / 100 % 10, n / 1000] := by
  rw [Nat.digits_def' (by norm_num : (1 : Nat) < 10) (by omega),
    digits10_three (by omega) (by omega)]
  norm_num [Nat.div_div_eq_div_mul]

theorem digits10_five {n : Nat} (h1 : 10000 ≤ n) (h2 : n < 100000) :
    Nat.digits 10 n = [n % 10, n / 10 % 10, n / 100 % 10, n / 1000 % 10, n / 10000] := by
  rw [Nat.digits_def' (by norm_num : (1 : Nat) < 10) (by omega),
    digits10_four (by omega) (by omega)]
  norm_num [Nat.div_div_eq_div_mul]

theorem digits10_six {n : Nat} (h1 : 100000 ≤ n) (h2 : n < 1000000) :
    Nat.digits 10 n =
      [n % 10, n / 10 % 10, n / 100 % 10, n / 1000 % 10, n / 10000 % 10, n / 100000] := by
  rw [Nat.digits_def' (by norm_num : (1 : Nat) < 10) (by omega),
    digits10_five (by omega) (by omega)]
  norm_num [Nat.div_div_eq_div_mul]

theorem wu_loop_gt {n : Nat} (h : 9 < n) (buf : List Nat) :
    wu_loop n buf = wu_loop (n / 10) (buf ++ [DIGITS_START + n % 10]) := by
  rw [wu_loop]
  simp [h, put_u8, u8add_u8cast_digit (show n % 10 < 208 by omega)]

theorem wu_loop_le {n : Nat} (h : n ≤ 9) (buf : List Nat) :
    wu_loop n buf = (buf, n) := by
  rw [wu_loop]
  simp [Nat.not_lt.mpr h]

theorem wu_loop_snd_le (n : Nat) : ∀ buf : List Nat, (wu_loop n buf).2 ≤ 9 := by
  induction n using Nat.strong_induction_on with
  | _ n ih =>
    intro buf
    by_cases h : 9 < n
    · rw [wu_loop_gt h]
      exact ih (n / 10) (Nat.div_lt_self (by omega) (by omega)) _
    · rw [wu_loop_le (by omega)]
      omega

theorem wu_loop_append (n : Nat) :
    ∀ acc : List Nat, wu_loop n acc = (acc ++ (wu_loop n []).1, (wu_loop n []).2) := by
  induction n using Nat.strong_induction_on with
  | _ n ih =>
    intro acc
    by_cases h : 9 < n
    · have hd : n / 10 < n := Nat.div_lt_self (by omega) (by omega)
      rw [wu_loop_gt h acc, wu_loop_gt h [],
        ih _ hd (acc ++ [DIGITS_START + n % 10]), ih _ hd ([] ++ [DIGITS_START + n % 10])]
      simp
    · rw [wu_loop_le (by omega) acc, wu_loop_le (by omega) []]
      simp

theorem wu_loop_spec (n : Nat) :
    (wu_loop n []).1 ++ [DIGITS_START + (wu_loop n []).2] =
      if n = 0 then [DIGITS_START] else (Nat.digits 10 n).map (fun d => DIGITS_START + d) := by
  induction n using Nat.strong_induction_on with
  | _ n ih =>
    by_cases h : 9 < n
    · have hd : n / 10 < n := Nat.div_lt_self (by omega) (by omega)
      have ihn := ih (n / 10) hd
      rw [if_neg (by omega : ¬ n / 10 = 0)] at ihn
      rw [wu_loop_gt h [], wu_loop_append (n / 10) ([] ++ [DIGITS_START + n % 10]),
        if_neg (by omega : ¬ n = 0),
        Nat.digits_def' (by norm_num : (1 : Nat) < 10) (by omega : 0 < n)]
      simp only [List.map_cons, List.nil_append]
      rw [← ihn]
      simp
    · rw [wu_loop_le (by omega) []]
      by_cases h0 : n = 0
      · subst h0
        simp
      · rw [if_neg h0, digits10_one (by omega) (by omega)]
        simp

theorem decBytes_eq_reverse (n : Nat) :
    decBytes n = ((wu_loop n []).1 ++ [DIGITS_START + (wu_loop n []).2]).reverse := by
  rw [wu_loop_spec]
  unfold decBytes
  split
  · rfl
  · simp

theorem write_usize_eq (n : Nat) (bytes : List Nat) :
    write_usize n bytes = bytes ++ decBytes n := by
  unfold write_usize
  have h2 := wu_loop_snd_le n []
  rw [foldl_put_u8, decBytes_eq_reverse, u8add_u8cast_digit (by omega)]
  simp [put_u8, List.reverse_append]

theorem wu_scratch_len {n : Nat} (h : n < 2 ^ 64) : ((wu_loop n []).1).length ≤ 20 := by
  have hs := congrArg List.length (wu_loop_spec n)
  simp only [List.length_append, List.length_singleton] at hs
  by_cases h0 : n = 0
  · subst h0
    rw [if_pos rfl] at hs
    simp only [List.length_singleton] at hs
    omega
  · rw [if_neg h0, List.length_map, Nat.digits_len 10 n (by norm_num) h0] at hs
    have hlog : Nat.log 10 n < 20 := by
      apply Nat.log_lt_of_lt_pow h0
      calc n < 2 ^ 64 := h
        _ ≤ 10 ^ 20 := by norm_num
    omega

theorem decBytes_one {n : Nat} (h : n < 10) : decBytes n = [DIGITS_START + n] := by
  unfold decBytes
  by_cases h0 : n = 0
  · subst h0
    simp
  · rw [if_neg h0, digits10_one (by omega) h]
    simp

theorem decBytes_two {n : Nat} (h1 : 10 ≤ n) (h2 : n < 100) :
    decBytes n = [DIGITS_START + n / 10, DIGITS_START + n % 10] := by
  unfold decBytes
  rw [if_neg (by omega), digits10_two h1 h2]
  simp

theorem decBytes_three {n : Nat} (h1 : 100 ≤ n) (h2 : n < 1000) :
    decBytes n = [DIGITS_START + n / 100, DIGITS_START + n / 10 % 10, DIGITS_START + n % 10] := by
  unfold decBytes
  rw [if_neg (by omega), digits10_three h1 h2]
  simp

theorem decBytes_four {n : Nat} (h1 : 1000 ≤ n) (h2 : n < 10000) :
    decBytes n = [DIGITS_START + n / 1000, DIGITS_START + n / 100 % 10,
      DIGITS_START + n / 10 % 10, DIGITS_START + n % 10] := by
  unfold decBytes
  rw [if_neg (by omega), digits10_four h1 h2]
  simp

theorem decBytes_five {n : Nat} (h1 : 10000 ≤ n) (h2 : n < 100000) :
    decBytes n = [DIGITS_START + n / 10000, DIGITS_START + n / 1000 % 10,
      DIGITS_START + n / 100 % 10, DIGITS_START + n / 10 % 10, DIGITS_START + n % 10] := by
  unfold decBytes
  rw [if_neg (by omega), digits10_five h1 h2]
  simp

theorem decBytes_six {n : Nat} (h1 : 100000 ≤ n) (h2 : n < 1000000) :
    decBytes n = [DIGITS_START + n / 100000, DIGITS_START + n / 10000 % 10,
      DIGITS_START + n / 1000 % 10, DIGITS_START + n / 100 % 10,
      DIGITS_START + n / 10 % 10, DIGITS_START + n % 10] := by
  unfold decBytes
  rw [if_neg (by omega), digits10_six h1 h2]
  simp

theorem write_content_length_eq (n : Nat) (bytes : List Nat) :
    write_content_length n bytes =
      bytes ++ asciiBytes "\r\ncontent-length: " ++ decBytes n ++ asciiBytes "\r\n" := by
  unfold write_content_length
  split_ifs with h1 h2 h3 h4 h5 h6 <;> simp only [put_slice, put_u8]
  · rw [u8add_u8cast_digit (by omega), decBytes_one h1]
  · rw [u8cast_of_lt (by omega), u8add_digit (show n / 10 < 208 by omega),
      u8add_digit (show n % 10 < 208 by omega), decBytes_two (by omega) h2]
    simp
  · rw [u16cast_of_lt (by omega), u8add_u8cast_digit (show n / 100 < 208 by omega),
      u8add_u8cast_digit (show n / 10 % 10 < 208 by omega),
      u8add_u8cast_digit (show n % 10 < 208 by omega), decBytes_three (by omega) h3]
    simp
  · rw [u16cast_of_lt (by omega), u8add_u8cast_digit (show n / 1000 < 208 by omega),
      u8add_u8cast_digit (show n / 100 % 10 < 208 by omega),
      u8add_u8cast_digit (show n / 10 % 10 < 208 by omega),
      u8add_u8cast_digit (show n % 10 < 208 by omega), decBytes_four (by omega) h4]
    simp
  · rw [u32cast_of_lt (by omega), u8add_u8cast_digit (show n / 10000 < 208 by omega),
      u8add_u8cast_digit (show n / 1000 % 10 < 208 by omega),
      u8add_u8cast_digit (show n / 100 % 10 < 208 by omega),
      u8add_u8cast_digit (show n / 10 % 10 < 208 by omega),
      u8add_u8cast_digit (show n % 10 < 208 by omega), decBytes_five (by omega) h5]
    simp
  · rw [u32cast_of_lt (by omega), u8add_u8cast_digit (show n / 100000 < 208 by omega),
      u8add_u8cast_digit (show n / 10000 % 10 < 208 by omega),
      u8add_u8cast_digit (show n / 1000 % 10 < 208 by omega),
      u8add_u8cast_digit (show n / 100 % 10 < 208 by omega),
      u8add_u8cast_digit (show n / 10 % 10 < 208 by omega),
      u8add_u8cast_digit (show n % 10 < 208 by omega), decBytes_six (by omega) h6]
    simp
  · rw [write_usize_eq]

theorem write_status_line_eq (v : Version) (n : Nat) (bytes : List Nat) :
    write_status_line v n bytes =
      bytes ++ asciiBytes "HTTP/" ++ versionToken v ++
        [u8add DIGITS_START (u8cast (n / 100)), u8add DIGITS_START (u8cast (n / 10 % 10)),
          u8add DIGITS_START (u8cast (n % 10)), 32] := by
  cases v <;> simp [write_status_line, versionToken, put_slice, put_u8]

theorem pad3_eq {c : Nat} (h : c ≤ 999) :
    pad3 c = [DIGITS_START + c / 100, DIGITS_START + c / 10 % 10, DIGITS_START + c % 10] := by
  unfold pad3
  by_cases h0 : c = 0
  · subst h0
    simp [List.replicate]
  · by_cases hA : c < 10
    · rw [digits10_one (by omega) hA, (show c / 100 = 0 by omega),
        (show c / 10 % 10 = 0 by omega), (show c % 10 = c by omega)]
      simp [List.replicate]
    · by_cases hB : c < 100
      · rw [digits10_two (by omega) hB, (show c / 100 = 0 by omega),
          (show c / 10 % 10 = c / 10 by omega)]
        simp [List.replicate]
      · rw [digits10_three (by omega) (by omega)]
        simp

theorem decBytes_head {n : Nat} (h : n ≠ 0) :
    ∃ d, (decBytes n).head? = some (DIGITS_START + d) ∧ 0 < d ∧ d < 10 := by
  unfold decBytes
  rw [if_neg h]
  have hne : Nat.digits 10 n ≠ [] := Nat.digits_ne_nil_iff_ne_zero.mpr h
  refine ⟨(Nat.digits 10 n).getLast hne, ?_, ?_, ?_⟩
  · rw [List.head?_map, List.head?_reverse, List.getLast?_eq_getLast _ hne]
    rfl
  · exact Nat.pos_of_ne_zero (Nat.getLast_digit_ne_zero 10 h)
  · exact Nat.digits_lt_base (by norm_num) (List.getLast_mem hne)

theorem decBytes_length (n : Nat) : (decBytes n).length = Nat.log 10 n + 1 := by
  by_cases h : n = 0
  · subst h
    simp [decBytes]
  · unfold decBytes
    rw [if_neg h]
    simp [Nat.digits_len 10 n (by norm_num) h]

theorem decBytes_mem {n b : Nat} (hb : b ∈ decBytes n) :
    DIGITS_START ≤ b ∧ b ≤ DIGITS_START + 9 := by
  unfold decBytes at hb
  split at hb
  · simp at hb
    omega
  · obtain ⟨d, hd, rfl⟩ := List.mem_map.mp hb
    have hlt : d < 10 := Nat.digits_lt_base (by norm_num) (List.mem_reverse.mp hd)
    omega

theorem write_status_line_shift (v : Version) (n : Nat) (bytes : List Nat) :
    write_status_line v n bytes = bytes ++ write_status_line v n [] := by
  cases v <;> simp [write_status_line, put_slice, put_u8]

theorem u8add_u8cast (x : Nat) : u8add DIGITS_START (u8cast x) = (DIGITS_START + x) % 2 ^ 8 := by
  unfold u8add u8cast DIGITS_START
  omega

/-! Claim theorems. -/

/-- C1: for every version v in \x7bHTTP/0.9, HTTP/1.0, HTTP/1.1\x7d and every status
code c in [0, 999], `write_status_line v c buffer` appends exactly the bytes
`"HTTP/<v> "` followed by the zero-padded 3-digit decimal representation of c
followed by a single space byte, and nothing else. -/
theorem claim_C1 (v : Version) (c : Nat)
    (hv : v = Version.HTTP_09 ∨ v = Version.HTTP_10 ∨ v = Version.HTTP_11)
    (hc : c ≤ 999) (bytes : List Nat) :
    write_status_line v c bytes =
      bytes ++ asciiBytes "HTTP/" ++ versionToken v ++ pad3 c ++ [32] := by
  rw [write_status_line_eq, pad3_eq hc,
    u8add_u8cast_digit (show c / 100 < 208 by omega),
    u8add_u8cast_digit (show c / 10 % 10 < 208 by omega),
    u8add_u8cast_digit (show c % 10 < 208 by omega)]
  simp

/-- C1 witness: the claim instantiated at HTTP/1.1, code 200, empty buffer. -/
theorem claim_C1_witness :
    (Version.HTTP_11 = Version.HTTP_09 ∨ Version.HTTP_11 = Version.HTTP_10 ∨
      Version.HTTP_11 = Version.HTTP_11) ∧ 200 ≤ 999 ∧
    write_status_line Version.HTTP_11 200 [] =
      [] ++ asciiBytes "HTTP/" ++ versionToken Version.HTTP_11 ++ pad3 200 ++ [32] :=
  ⟨by decide, by decide, claim_C1 Version.HTTP_11 200 (by decide) (by decide) []⟩

/-- C2: for every unsigned value n, `write_content_length n buffer` appends
exactly `"\r\ncontent-length: "` followed by the decimal representation of n
followed by `"\r\n"`, where the decimal representation has no leading zeros
(the single digit "0" when n = 0) and exactly the canonical digit count of n. -/
theorem claim_C2 (n : Nat) (bytes : List Nat) :
    write_content_length n bytes =
      bytes ++ asciiBytes "\r\ncontent-length: " ++ decBytes n ++ asciiBytes "\r\n" ∧
    (decBytes n).length = Nat.log 10 n + 1 ∧
    (n = 0 → decBytes n = [DIGITS_START]) ∧
    (n ≠ 0 → ∃ d, (decBytes n).head? = some (DIGITS_START + d) ∧ 0 < d ∧ d < 10) := by
  refine ⟨write_content_length_eq n bytes, decBytes_length n, ?_, fun h => decBytes_head h⟩
  intro h
  subst h
  rfl

/-- C2 witness: the claim instantiated at n = 1001, empty buffer. -/
theorem claim_C2_witness :
    write_content_length 1001 [] =
      [] ++ asciiBytes "\r\ncontent-length: " ++ decBytes 1001 ++ asciiBytes "\r\n" ∧
    (decBytes 1001).length = Nat.log 10 1001 + 1 ∧
    (1001 = 0 → decBytes 1001 = [DIGITS_START]) ∧
    (1001 ≠ 0 → ∃ d, (decBytes 1001).head? = some (DIGITS_START + d) ∧ 0 < d ∧ d < 10) :=
  claim_C2 1001 []

/-- C3: for every u16 status code (including codes ≥ 1000), `write_status_line`
appends exactly three bytes for the code, computed as `'0' + code / 100`,
`'0' + code / 10 % 10` and `'0' + code % 10` with wrapping `u8` arithmetic
rather than an error; the operation cannot fail for any input. -/
theorem claim_C3 (v : Version) (n : Nat) (hn : n < 2 ^ 16) (bytes : List Nat) :
    write_status_line v n bytes =
      bytes ++ asciiBytes "HTTP/" ++ versionToken v ++
        [(DIGITS_START + n / 100) % 2 ^ 8, (DIGITS_START + n / 10 % 10) % 2 ^ 8,
          (DIGITS_START + n % 10) % 2 ^ 8, 32] := by
  rw [write_status_line_eq]
  simp only [u8add_u8cast]

/-- C3 witness: the claim instantiated at HTTP/1.1, code 1000 (out of the
3-digit range), empty buffer; the leading digit byte wraps to `'0' + 10`. -/
theorem claim_C3_witness :
    1000 < 2 ^ 16 ∧
    write_status_line Version.HTTP_11 1000 [] =
      [] ++ asciiBytes "HTTP/" ++ versionToken Version.HTTP_11 ++
        [(DIGITS_START + 1000 / 100) % 2 ^ 8, (DIGITS_START + 1000 / 10 % 10) % 2 ^ 8,
          (DIGITS_START + 1000 % 10) % 2 ^ 8, 32] :=
  ⟨by decide, claim_C3 Version.HTTP_11 1000 (by decide) []⟩

/-- C4 counterexample: for an unrecognized version and code 200 the encoder
emits `"HTTP/200 "`, not `"HTTP/ 200 "` as the claim's example states. -/
theorem claim_C4_counterexample :
    write_status_line Version.HTTP_2 200 [] ≠ asciiBytes "HTTP/ 200 " ∧
    write_status_line Version.HTTP_2 200 [] = asciiBytes "HTTP/200 " := by
  constructor
  · decide
  · decide

/-- C4 (amended): for every unrecognized HTTP version token and every code,
`write_status_line` appends nothing for the version segment and still appends
the `"HTTP/"` literal, the three code digit bytes, and the trailing space
(e.g. producing `"HTTP/200 "`), without reporting any error or runtime fault. -/
theorem claim_C4 (v : Version) (n : Nat) (bytes : List Nat)
    (hv9 : v ≠ Version.HTTP_09) (hv10 : v ≠ Version.HTTP_10) (hv11 : v ≠ Version.HTTP_11) :
    write_status_line v n bytes =
      bytes ++ asciiBytes "HTTP/" ++
        [(DIGITS_START + n / 100) % 2 ^ 8, (DIGITS_START + n / 10 % 10) % 2 ^ 8,
          (DIGITS_START + n % 10) % 2 ^ 8, 32] := by
  have h := write_status_line_eq v n bytes
  simp only [u8add_u8cast] at h
  cases v with
  | HTTP_09 => exact absurd rfl hv9
  | HTTP_10 => exact absurd rfl hv10
  | HTTP_11 => exact absurd rfl hv11
  | HTTP_2 => simpa [versionToken] using h
  | HTTP_3 => simpa [versionToken] using h

/-- C4 witness: the amended claim instantiated at HTTP/2, code 200, empty
buffer. -/
theorem claim_C4_witness :
    Version.HTTP_2 ≠ Version.HTTP_09 ∧ Version.HTTP_2 ≠ Version.HTTP_10 ∧
    Version.HTTP_2 ≠ Version.HTTP_11 ∧
    write_status_line Version.HTTP_2 200 [] =
      [] ++ asciiBytes "HTTP/" ++
        [(DIGITS_START + 200 / 100) % 2 ^ 8, (DIGITS_START + 200 / 10 % 10) % 2 ^ 8,
          (DIGITS_START + 200 % 10) % 2 ^ 8, 32] :=
  ⟨by decide, by decide, by decide,
    claim_C4 Version.HTTP_2 200 [] (by decide) (by decide) (by decide)⟩

/-- C5: for every unsigned value n, `write_usize n buffer` extracts digits
least-significant-first by repeated mod/div 10 into a scratch sequence of at
most 20 entries until the remaining value is below 10, appends that final
remaining digit as the most-significant byte, then replays the scratch in
reverse, so the appended bytes are exactly the decimal digits of n in
most-significant-first order with no leading zeros. -/
theorem claim_C5 (n : Nat) (hn : n < 2 ^ 64) (bytes : List Nat) :
    (wu_loop n []).1.length ≤ 20 ∧
    (wu_loop n []).2 < 10 ∧
    write_usize n bytes =
      bytes ++ [DIGITS_START + (wu_loop n []).2] ++ (wu_loop n []).1.reverse ∧
    write_usize n bytes = bytes ++ decBytes n ∧
    (n ≠ 0 → ∃ d, (decBytes n).head? = some (DIGITS_START + d) ∧ 0 < d ∧ d < 10) := by
  have h2 := wu_loop_snd_le n []
  refine ⟨wu_scratch_len hn, by omega, ?_, write_usize_eq n bytes, fun h => decBytes_head h⟩
  unfold write_usize
  rw [foldl_put_u8, u8add_u8cast_digit (by omega)]
  simp [put_u8]

/-- C5 witness: the claim instantiated at n = 4294973728 (a 10-digit test
vector of the source), empty buffer. -/
theorem claim_C5_witness :
    4294973728 < 2 ^ 64 ∧
    ((wu_loop 4294973728 []).1.length ≤ 20 ∧
    (wu_loop 4294973728 []).2 < 10 ∧
    write_usize 4294973728 [] =
      [] ++ [DIGITS_START + (wu_loop 4294973728 []).2] ++ (wu_loop 4294973728 []).1.reverse ∧
    write_usize 4294973728 [] = [] ++ decBytes 4294973728 ∧
    (4294973728 ≠ 0 →
      ∃ d, (decBytes 4294973728).head? = some (DIGITS_START + d) ∧ 0 < d ∧ d < 10)) :=
  ⟨by norm_num, claim_C5 4294973728 (by norm_num) []⟩

/-- C6: every operation terminates for every input: the digit-extraction loop
of `write_usize` strictly decreases its value by integer division by 10 and
runs at most 20 iterations for any value below 2^64 (one scratch entry per
iteration), so the encoders are total functions on all representable inputs. -/
theorem claim_C6 (n : Nat) (hn : n < 2 ^ 64) :
    (wu_loop n []).1.length ≤ 20 ∧ ∀ m : Nat, 9 < m → m / 10 < m :=
  ⟨wu_scratch_len hn, fun _ hm => Nat.div_lt_self (by omega) (by omega)⟩

/-- C6 witness: the claim instantiated at the largest 64-bit value. -/
theorem claim_C6_witness :
    2 ^ 64 - 1 < 2 ^ 64 ∧
    ((wu_loop (2 ^ 64 - 1) []).1.length ≤ 20 ∧ ∀ m : Nat, 9 < m → m / 10 < m) :=
  ⟨by norm_num, claim_C6 (2 ^ 64 - 1) (by norm_num)⟩

/-- C7: the size tiering of `write_content_length` is semantically transparent:
for every n the tiered paths emit exactly the bytes the general emission
`write_usize` would emit, so collapsing all tiers to the single general routine
(`write_content_length_general`) yields byte-identical output for every n. -/
theorem claim_C7 (n : Nat) (bytes : List Nat) :
    write_content_length n bytes = write_content_length_general n bytes := by
  rw [write_content_length_eq]
  simp only [write_content_length_general, put_slice]
  rw [write_usize_eq]

/-- C8: for every byte sequence s, writing s through the stream adapter leaves
the buffer with exactly the contents of appending s directly, and `write`
returns success carrying the full length of s; `flush` returns success and
leaves the buffer unchanged. -/
theorem claim_C8 (buf s : List Nat) :
    Writer_write buf s = (buf ++ s, Except.ok s.length) ∧
    Writer_flush buf = (buf, Except.ok ()) :=
  ⟨rfl, rfl⟩

/-- C9: every operation of the core is append-only on the output buffer: the
buffer after a call equals the prior contents followed by the newly emitted
bytes (which do not depend on the prior contents). -/
theorem claim_C9 (v : Version) (c n : Nat) (buf s : List Nat) :
    write_status_line v c buf = buf ++ write_status_line v c [] ∧
    write_content_length n buf = buf ++ write_content_length n [] ∧
    write_usize n buf = buf ++ write_usize n [] ∧
    (Writer_write buf s).1 = buf ++ (Writer_write [] s).1 := by
  refine ⟨write_status_line_shift v c buf, ?_, ?_, rfl⟩
  · rw [write_content_length_eq n buf, write_content_length_eq n []]
    simp
  · rw [write_usize_eq n buf, write_usize_eq n []]
    simp

/-- C10: the narrowing casts of `write_content_length` are value-preserving
under their tier guards, and every digit byte the encoder emits between the
header literal and the trailing CRLF lies in the ASCII range `'0'..='9'`
(hence `'0' + d` never overflows a `u8`). -/
theorem claim_C10 (n : Nat) :
    (n < 100 → u8cast n = n) ∧
    (n < 10000 → u16cast n = n) ∧
    (n < 1000000 → u32cast n = n) ∧
    ∃ mid, write_content_length n [] =
        asciiBytes "\r\ncontent-length: " ++ mid ++ asciiBytes "\r\n" ∧
      ∀ b ∈ mid, DIGITS_START ≤ b ∧ b ≤ DIGITS_START + 9 := by
  refine ⟨fun h => u8cast_of_lt (by omega), fun h => u16cast_of_lt (by omega),
    fun h => u32cast_of_lt (by omega), decBytes n, ?_, fun b hb => decBytes_mem hb⟩
  rw [write_content_length_eq]
  simp

/-- C10 witness: the claim instantiated at n = 99, which satisfies all three
tier guards. -/
theorem claim_C10_witness :
    (99 < 100 → u8cast 99 = 99) ∧
    (99 < 10000 → u16cast 99 = 99) ∧
    (99 < 1000000 → u32cast 99 = 99) ∧
    ∃ mid, write_content_length 99 [] =
        asciiBytes "\r\ncontent-length: " ++ mid ++ asciiBytes "\r\n" ∧
      ∀ b ∈ mid, DIGITS_START ≤ b ∧ b ≤ DIGITS_START + 9 :=
  claim_C10 99

end ActixHelpers
